import Mathlib

/-!
Shallow embedding of the prize-bond ingestion engine from `src/index.tsx`
(`handleProcessInput` and its surrounding state handling).  Strings are
modelled as Lean `String`; the character-level operations (splitting on
separators, the range regular expression, decimal parsing and padding)
are spelled out on `List Char` so that every definition is executable.
-/

namespace PrizeBond

/-- JavaScript whitespace characters relevant here (the `\s` class on the
ASCII range used by the app). -/
def isWs (c : Char) : Bool :=
  c = ' ' || c = '\t' || c = '\n' || c = '\r' || c = '\x0b' || c = '\x0c'

/-- A separator character of the splitting regex `[,\s\n]+`. -/
def isSep (c : Char) : Bool :=
  c = ',' || isWs c

/-- Splitting on runs of separator characters, dropping empty pieces:
the model of `inputValue.split(/[,\s\n]+/).map(s => s.trim()).filter(Boolean)`. -/
def splitAux : List Char → List Char → List (List Char)
  | [], acc => if acc.isEmpty then [] else [acc.reverse]
  | c :: cs, acc =>
    if isSep c then
      if acc.isEmpty then splitAux cs [] else acc.reverse :: splitAux cs []
    else
      splitAux cs (c :: acc)

def splitInput (s : String) : List String :=
  (splitAux s.toList []).map String.mk

/-- Decimal digit test, the `\d` class. -/
def isDigitCh (c : Char) : Bool :=
  48 ≤ c.toNat && c.toNat ≤ 57

/-- The range pattern `^(\d{7})\s*-\s*(\d{7})$`: on success returns the two
captured digit groups. -/
def rangeMatch (s : String) : Option (List Char × List Char) :=
  let cs := s.toList
  let d1 := cs.take 7
  let rest := cs.drop 7
  if d1.length = 7 && d1.all isDigitCh then
    match rest.dropWhile isWs with
    | '-' :: rest2 =>
      let d2 := rest2.dropWhile isWs
      if d2.length = 7 && d2.all isDigitCh then some (d1, d2) else none
    | _ => none
  else none

/-- `parseInt(str, 10)` on a string of decimal digits. -/
def parseDigits (cs : List Char) : Nat :=
  cs.foldl (fun a c => 10 * a + (c.toNat - 48)) 0

def digitChar : Nat → Char
  | 0 => '0' | 1 => '1' | 2 => '2' | 3 => '3' | 4 => '4'
  | 5 => '5' | 6 => '6' | 7 => '7' | 8 => '8' | _ => '9'

/-- Fuel-driven decimal rendering of a natural number (most significant
digit first), the model of `i.toString()`. -/
def toDecCore : Nat → Nat → List Char → List Char
  | 0, _, acc => acc
  | fuel + 1, n, acc =>
    if n < 10 then digitChar n :: acc
    else toDecCore fuel (n / 10) (digitChar (n % 10) :: acc)

/-- `i.toString().padStart(7, '0')`. -/
def pad7 (n : Nat) : String :=
  let ds := toDecCore (n + 1) n []
  String.mk (List.replicate (7 - ds.length) '0' ++ ds)

/-- The strict single-bond pattern `^\d{7}$`. -/
def isSingleBond (s : String) : Bool :=
  s.toList.length = 7 && s.toList.all isDigitCh

/-- The per-call accumulator of `handleProcessInput`: the accepted new
bonds in acceptance order plus the four outcome counters. -/
structure IngestSt where
  validNewBonds : List String
  duplicates : Nat
  rangeFormatErrors : Nat
  rangeSizeErrors : Nat
  singleFormatErrors : Nat
deriving DecidableEq, Repr

def IngestSt.init : IngestSt := ⟨[], 0, 0, 0, 0⟩

def MAX_RANGE_SIZE : Nat := 50000

/-- Accepting one candidate identifier: a duplicate against the existing
collection or against the bonds accepted earlier in the same call is
counted and discarded, otherwise the candidate is appended. -/
def addCandidate (existingSet : List String) (st : IngestSt) (bondStr : String) : IngestSt :=
  if bondStr ∈ existingSet ∨ bondStr ∈ st.validNewBonds then
    { st with duplicates := st.duplicates + 1 }
  else
    { st with validNewBonds := st.validNewBonds ++ [bondStr] }

/-- The inclusive expansion loop `for (let i = start; i <= end; i++)`. -/
def expandFold (existingSet : List String) (lo hi : Nat) (st : IngestSt) : IngestSt :=
  (List.range' lo (hi + 1 - lo)).foldl (fun s i => addCandidate existingSet s (pad7 i)) st

/-- Processing of one token of the input, mirroring the body of
`segments.forEach` in `handleProcessInput`. -/
def processSegment (existingSet : List String) (st : IngestSt) (segment : String) : IngestSt :=
  match rangeMatch segment with
  | some (startStr, endStr) =>
    let s0 := parseDigits startStr
    let e0 := parseDigits endStr
    let lo := if e0 < s0 then e0 else s0
    let hi := if e0 < s0 then s0 else e0
    if MAX_RANGE_SIZE < hi - lo then
      { st with rangeSizeErrors := st.rangeSizeErrors + 1 }
    else
      expandFold existingSet lo hi st
  | none =>
    if '-' ∈ segment.toList then
      { st with rangeFormatErrors := st.rangeFormatErrors + 1 }
    else if isSingleBond segment then
      addCandidate existingSet st segment
    else
      { st with singleFormatErrors := st.singleFormatErrors + 1 }

/-- The whole parsing and classification pass of one ingestion call. -/
def processInput (bonds : List String) (input : String) : IngestSt :=
  (splitInput input).foldl (processSegment bonds) IngestSt.init

/-- The two pieces of application state that ingestion reads and writes:
the bond collection and the text input field. -/
structure AppState where
  bonds : List String
  inputValue : String
deriving DecidableEq, Repr

/-- One fragment of the outcome message built on the all-rejected path
(the `parts` array of the source). -/
inductive MsgPart where
  | dupPart (n : Nat)
  | rangeSizePart (n : Nat)
  | rangeFormatPart (n : Nat)
  | singleFormatPart (n : Nat)
deriving DecidableEq, Repr

/-- The notification emitted by one ingestion call, keeping its structure
rather than its rendered text. -/
inductive Notif where
  | enterPrompt
  | successMsg (added duplicates : Nat)
  | duplicateWarning (duplicates : Nat)
  | issuesWarning (p : List MsgPart)
  | noValidError
deriving DecidableEq, Repr

/-- The `parts` array pushed in source order: duplicates, ranges too
large, ranges with invalid digits, invalid single numbers. -/
def buildParts (st : IngestSt) : List MsgPart :=
  (if 0 < st.duplicates then [MsgPart.dupPart st.duplicates] else []) ++
  (if 0 < st.rangeSizeErrors then [MsgPart.rangeSizePart st.rangeSizeErrors] else []) ++
  (if 0 < st.rangeFormatErrors then [MsgPart.rangeFormatPart st.rangeFormatErrors] else []) ++
  (if 0 < st.singleFormatErrors then [MsgPart.singleFormatPart st.singleFormatErrors] else [])

/-- The guard `!inputValue.trim()`: the trimmed input is empty exactly
when every character is whitespace. -/
def blankInput (s : String) : Bool :=
  s.toList.all isWs

/-- The whole ingestion call `handleProcessInput`: returns the updated
application state together with the notification shown. -/
def handleProcessInput (a : AppState) : AppState × Notif :=
  if blankInput a.inputValue then
    (a, Notif.enterPrompt)
  else if (processInput a.bonds a.inputValue).validNewBonds ≠ [] then
    ({ bonds := (processInput a.bonds a.inputValue).validNewBonds.reverse ++ a.bonds,
       inputValue := "" },
     Notif.successMsg (processInput a.bonds a.inputValue).validNewBonds.length
       (processInput a.bonds a.inputValue).duplicates)
  else if 0 < (processInput a.bonds a.inputValue).duplicates ∧
          (processInput a.bonds a.inputValue).rangeSizeErrors = 0 ∧
          (processInput a.bonds a.inputValue).rangeFormatErrors = 0 ∧
          (processInput a.bonds a.inputValue).singleFormatErrors = 0 then
    ({ bonds := a.bonds, inputValue := "" },
     Notif.duplicateWarning (processInput a.bonds a.inputValue).duplicates)
  else if buildParts (processInput a.bonds a.inputValue) ≠ [] then
    (a, Notif.issuesWarning (buildParts (processInput a.bonds a.inputValue)))
  else
    (a, Notif.noValidError)

/-- One save action on a bond collection. -/
def applySave (bonds : List String) (input : String) : List String :=
  (handleProcessInput ⟨bonds, input⟩).1.bonds

/-- A whole session of save actions starting from the empty collection. -/
def applyInputs (inputs : List String) : List String :=
  inputs.foldl applySave []

/-! ### Invariant machinery -/

/-- The per-call invariant: the accepted list has no duplicates and is
disjoint from the existing collection. -/
def GoodSt (existingSet : List String) (st : IngestSt) : Prop :=
  st.validNewBonds.Nodup ∧ ∀ x ∈ st.validNewBonds, x ∉ existingSet

theorem goodSt_init (existingSet : List String) : GoodSt existingSet IngestSt.init :=
  ⟨List.nodup_nil, by intro x hx; simp [IngestSt.init] at hx⟩

theorem addCandidate_good {existingSet : List String} {st : IngestSt} (b : String)
    (h : GoodSt existingSet st) : GoodSt existingSet (addCandidate existingSet st b) := by
  obtain ⟨h1, h2⟩ := h
  unfold addCandidate
  split
  · exact ⟨h1, h2⟩
  · rename_i hnot
    push_neg at hnot
    refine ⟨?_, ?_⟩
    · rw [List.nodup_append]
      refine ⟨h1, List.nodup_singleton b, ?_⟩
      intro x hx hxb
      rw [List.mem_singleton] at hxb
      subst hxb
      exact hnot.2 hx
    · intro x hx
      rcases List.mem_append.mp hx with hx | hx
      · exact h2 x hx
      · rw [List.mem_singleton] at hx
        subst hx
        exact hnot.1

theorem foldl_addCandidate_good {existingSet : List String} (l : List String) :
    ∀ {st : IngestSt}, GoodSt existingSet st →
      GoodSt existingSet (l.foldl (addCandidate existingSet) st) := by
  induction l with
  | nil => intro st h; exact h
  | cons b l ih => intro st h; exact ih (addCandidate_good b h)

theorem expandFold_good {existingSet : List String} {st : IngestSt} (lo hi : Nat)
    (h : GoodSt existingSet st) : GoodSt existingSet (expandFold existingSet lo hi st) := by
  unfold expandFold
  rw [← List.foldl_map]
  exact foldl_addCandidate_good _ h

theorem processSegment_good {existingSet : List String} {st : IngestSt} (segment : String)
    (h : GoodSt existingSet st) : GoodSt existingSet (processSegment existingSet st segment) := by
  unfold processSegment
  cases hm : rangeMatch segment with
  | some p =>
    obtain ⟨a, b⟩ := p
    simp only
    split <;> split
    all_goals first
      | exact ⟨h.1, h.2⟩
      | exact expandFold_good _ _ h
  | none =>
    simp only
    split
    · exact ⟨h.1, h.2⟩
    · split
      · exact addCandidate_good _ h
      · exact ⟨h.1, h.2⟩

theorem processInput_good (bonds : List String) (input : String) :
    GoodSt bonds (processInput bonds input) := by
  unfold processInput
  have key : ∀ (segs : List String) (st : IngestSt), GoodSt bonds st →
      GoodSt bonds (segs.foldl (processSegment bonds) st) := by
    intro segs
    induction segs with
    | nil => intro st h; exact h
    | cons seg segs ih => intro st h; exact ih _ (processSegment_good seg h)
  exact key _ _ (goodSt_init bonds)

theorem applySave_nodup {bonds : List String} (input : String) (h : bonds.Nodup) :
    (applySave bonds input).Nodup := by
  unfold applySave handleProcessInput
  split
  · exact h
  · split
    · have hg := processInput_good bonds input
      simp only
      rw [List.nodup_append]
      refine ⟨List.nodup_reverse.mpr hg.1, h, ?_⟩
      intro x hx hxb
      exact hg.2 x (List.mem_reverse.mp hx) hxb
    · split
      · exact h
      · split
        · exact h
        · exact h

theorem splitAux_all_sep (cs : List Char) (hall : ∀ c ∈ cs, isSep c = true) :
    splitAux cs [] = [] := by
  induction cs with
  | nil => rfl
  | cons c cs ih =>
    have hc : isSep c = true := hall c (List.mem_cons_self c cs)
    simp only [splitAux, hc, if_true, List.isEmpty_nil]
    exact ih (fun x hx => hall x (List.mem_cons_of_mem c hx))

theorem blank_processInput (bonds : List String) (input : String)
    (hb : blankInput input = true) : processInput bonds input = IngestSt.init := by
  unfold blankInput at hb
  unfold processInput splitInput
  rw [splitAux_all_sep input.toList
    (fun c hc => by simp [isSep, List.all_eq_true.mp hb c hc])]
  rfl

theorem dupPart_mem {st : IngestSt} (h : 0 < st.duplicates) :
    MsgPart.dupPart st.duplicates ∈ buildParts st := by
  simp [buildParts, h]

theorem rangeSizePart_mem {st : IngestSt} (h : 0 < st.rangeSizeErrors) :
    MsgPart.rangeSizePart st.rangeSizeErrors ∈ buildParts st := by
  simp [buildParts, h]

theorem rangeFormatPart_mem {st : IngestSt} (h : 0 < st.rangeFormatErrors) :
    MsgPart.rangeFormatPart st.rangeFormatErrors ∈ buildParts st := by
  simp [buildParts, h]

theorem singleFormatPart_mem {st : IngestSt} (h : 0 < st.singleFormatErrors) :
    MsgPart.singleFormatPart st.singleFormatErrors ∈ buildParts st := by
  simp [buildParts, h]

/-! ### Claim theorems -/

/-- Claim C1: starting from the empty collection, any sequence of save
actions leaves the bond collection free of duplicate identifiers: a
candidate already in the collection or already accepted earlier in the
same call is counted as a duplicate and discarded, never added twice. -/
theorem ingestion_preserves_nodup (inputs : List String) : (applyInputs inputs).Nodup := by
  unfold applyInputs
  have key : ∀ (l : List String) (bonds : List String), bonds.Nodup →
      (l.foldl applySave bonds).Nodup := by
    intro l
    induction l with
    | nil => intro bonds h; exact h
    | cons i l ih => intro bonds h; exact ih _ (applySave_nodup i h)
  exact key inputs [] List.nodup_nil

/-- Claim C2: on non-blank input, ingestion ends in one of three ways:
a non-empty accepted set is inserted and the input cleared; an empty
accepted set with only duplicates gives a warning and still clears the
input; an empty accepted set with formatting errors reports every
non-zero error category and leaves the input untouched. -/
theorem ingestion_three_way_termination (a : AppState)
    (h : blankInput a.inputValue = false) :
    ((processInput a.bonds a.inputValue).validNewBonds ≠ [] →
      (handleProcessInput a).1.inputValue = "" ∧
      (handleProcessInput a).1.bonds =
        (processInput a.bonds a.inputValue).validNewBonds.reverse ++ a.bonds ∧
      (handleProcessInput a).2 =
        Notif.successMsg (processInput a.bonds a.inputValue).validNewBonds.length
          (processInput a.bonds a.inputValue).duplicates) ∧
    ((processInput a.bonds a.inputValue).validNewBonds = [] ∧
        0 < (processInput a.bonds a.inputValue).duplicates ∧
        (processInput a.bonds a.inputValue).rangeSizeErrors = 0 ∧
        (processInput a.bonds a.inputValue).rangeFormatErrors = 0 ∧
        (processInput a.bonds a.inputValue).singleFormatErrors = 0 →
      (handleProcessInput a).1.inputValue = "" ∧
      (handleProcessInput a).1.bonds = a.bonds ∧
      (handleProcessInput a).2 =
        Notif.duplicateWarning (processInput a.bonds a.inputValue).duplicates) ∧
    ((processInput a.bonds a.inputValue).validNewBonds = [] ∧
        (0 < (processInput a.bonds a.inputValue).rangeSizeErrors ∨
         0 < (processInput a.bonds a.inputValue).rangeFormatErrors ∨
         0 < (processInput a.bonds a.inputValue).singleFormatErrors) →
      (handleProcessInput a).1 = a ∧
      (handleProcessInput a).2 =
        Notif.issuesWarning (buildParts (processInput a.bonds a.inputValue)) ∧
      (0 < (processInput a.bonds a.inputValue).duplicates →
        MsgPart.dupPart (processInput a.bonds a.inputValue).duplicates ∈
          buildParts (processInput a.bonds a.inputValue)) ∧
      (0 < (processInput a.bonds a.inputValue).rangeSizeErrors →
        MsgPart.rangeSizePart (processInput a.bonds a.inputValue).rangeSizeErrors ∈
          buildParts (processInput a.bonds a.inputValue)) ∧
      (0 < (processInput a.bonds a.inputValue).rangeFormatErrors →
        MsgPart.rangeFormatPart (processInput a.bonds a.inputValue).rangeFormatErrors ∈
          buildParts (processInput a.bonds a.inputValue)) ∧
      (0 < (processInput a.bonds a.inputValue).singleFormatErrors →
        MsgPart.singleFormatPart (processInput a.bonds a.inputValue).singleFormatErrors ∈
          buildParts (processInput a.bonds a.inputValue))) := by
  refine ⟨?_, ?_, ?_⟩
  · intro hne
    unfold handleProcessInput
    rw [if_neg (by simp [h]), if_pos hne]
    exact ⟨rfl, rfl, rfl⟩
  · rintro ⟨h1, h2, h3, h4, h5⟩
    unfold handleProcessInput
    rw [if_neg (by simp [h]), if_neg (fun hc => hc h1), if_pos ⟨h2, h3, h4, h5⟩]
    exact ⟨rfl, rfl, rfl⟩
  · rintro ⟨h1, h2⟩
    unfold handleProcessInput
    rw [if_neg (by simp [h]), if_neg (fun hc => hc h1)]
    have hdup : ¬(0 < (processInput a.bonds a.inputValue).duplicates ∧
        (processInput a.bonds a.inputValue).rangeSizeErrors = 0 ∧
        (processInput a.bonds a.inputValue).rangeFormatErrors = 0 ∧
        (processInput a.bonds a.inputValue).singleFormatErrors = 0) := by
      rintro ⟨_, hA, hB, hC⟩
      rcases h2 with h2 | h2 | h2 <;> omega
    rw [if_neg hdup]
    have hparts : buildParts (processInput a.bonds a.inputValue) ≠ [] := by
      rcases h2 with h2 | h2 | h2
      · exact List.ne_nil_of_mem (rangeSizePart_mem h2)
      · exact List.ne_nil_of_mem (rangeFormatPart_mem h2)
      · exact List.ne_nil_of_mem (singleFormatPart_mem h2)
    rw [if_pos hparts]
    exact ⟨rfl, rfl, fun hd => dupPart_mem hd, fun hr => rangeSizePart_mem hr,
      fun hr => rangeFormatPart_mem hr, fun hs => singleFormatPart_mem hs⟩

theorem ingestion_three_way_termination_witness :
    blankInput "0000001" = false ∧
    ((handleProcessInput ⟨[], "0000001"⟩).1.inputValue = "" ∧
     (handleProcessInput ⟨[], "0000001"⟩).1.bonds =
       (processInput [] "0000001").validNewBonds.reverse ++ [] ∧
     (handleProcessInput ⟨[], "0000001"⟩).2 =
       Notif.successMsg (processInput [] "0000001").validNewBonds.length
         (processInput [] "0000001").duplicates) :=
  ⟨by decide, (ingestion_three_way_termination ⟨[], "0000001"⟩ (by decide)).1 (by decide)⟩

/-- Claim C3: a range whose span after any swap exceeds the cap is
rejected whole: the state is unchanged except that the range-too-large
counter grows by exactly one, so the range contributes no identifiers. -/
theorem range_too_large_rejected (existingSet : List String) (st : IngestSt)
    (segment : String) (startStr endStr : List Char)
    (hm : rangeMatch segment = some (startStr, endStr))
    (hspan : MAX_RANGE_SIZE <
      (if parseDigits endStr < parseDigits startStr then parseDigits startStr
       else parseDigits endStr) -
      (if parseDigits endStr < parseDigits startStr then parseDigits endStr
       else parseDigits startStr)) :
    processSegment existingSet st segment =
      { st with rangeSizeErrors := st.rangeSizeErrors + 1 } := by
  simp only [processSegment, hm]
  rw [if_pos hspan]

theorem range_too_large_rejected_witness :
    rangeMatch "0000001-0060000" = some ("0000001".toList, "0060000".toList) ∧
    processSegment [] IngestSt.init "0000001-0060000" =
      { IngestSt.init with rangeSizeErrors := IngestSt.init.rangeSizeErrors + 1 } :=
  ⟨by decide,
   range_too_large_rejected [] IngestSt.init "0000001-0060000" "0000001".toList
     "0060000".toList (by decide) (by decide)⟩

/-- Claim C4: a well-formed range whose first bound exceeds the second is
not rejected: the bounds are swapped and the range expands exactly like
the corresponding ascending range; in particular "0000008-0000005"
expands to the four identifiers in ascending order. -/
theorem inverted_range_swapped (existingSet : List String) (st : IngestSt)
    (segment : String) (startStr endStr : List Char)
    (hm : rangeMatch segment = some (startStr, endStr))
    (hlt : parseDigits endStr < parseDigits startStr)
    (hcap : parseDigits startStr - parseDigits endStr ≤ MAX_RANGE_SIZE) :
    processSegment existingSet st segment =
      expandFold existingSet (parseDigits endStr) (parseDigits startStr) st ∧
    processSegment [] IngestSt.init "0000008-0000005" =
      { IngestSt.init with
        validNewBonds := ["0000005", "0000006", "0000007", "0000008"] } := by
  constructor
  · simp only [processSegment, hm, hlt, if_true]
    rw [if_neg (Nat.not_lt.mpr hcap)]
  · decide

theorem inverted_range_swapped_witness :
    parseDigits "0000005".toList < parseDigits "0000008".toList ∧
    processSegment [] IngestSt.init "0000008-0000005" =
      expandFold [] (parseDigits "0000005".toList) (parseDigits "0000008".toList)
        IngestSt.init :=
  ⟨by decide,
   (inverted_range_swapped [] IngestSt.init "0000008-0000005" "0000008".toList
     "0000005".toList (by decide) (by decide) (by decide)).1⟩

/-- Claim C5: on a successful ingestion the accepted identifiers are
prepended as one block whose internal order is the reverse of acceptance
order; ingesting "0000001-0000003" into an empty collection yields
["0000003", "0000002", "0000001"]. -/
theorem insertion_prepends_reversed_block (a : AppState)
    (h : (processInput a.bonds a.inputValue).validNewBonds ≠ []) :
    (handleProcessInput a).1.bonds =
      (processInput a.bonds a.inputValue).validNewBonds.reverse ++ a.bonds ∧
    (handleProcessInput ⟨[], "0000001-0000003"⟩).1.bonds =
      ["0000003", "0000002", "0000001"] := by
  constructor
  · have hb : blankInput a.inputValue = false := by
      by_contra hc
      rw [Bool.not_eq_false] at hc
      rw [blank_processInput a.bonds a.inputValue hc] at h
      exact h rfl
    unfold handleProcessInput
    rw [if_neg (by simp [hb]), if_pos h]
  · decide

theorem insertion_prepends_reversed_block_witness :
    (processInput [] "0000002").validNewBonds ≠ [] ∧
    (handleProcessInput ⟨[], "0000002"⟩).1.bonds =
      (processInput [] "0000002").validNewBonds.reverse ++ [] :=
  ⟨by decide, (insertion_prepends_reversed_block ⟨[], "0000002"⟩ (by decide)).1⟩

/-- Claim C6 counterexample: ingesting range "0000001-0000003" into an
empty collection puts "0000003" at the head of the new block, so the
lowest-valued new identifier "0000001" does not end up first. -/
theorem range_block_head_not_lowest :
    ¬ ((handleProcessInput ⟨[], "0000001-0000003"⟩).1.bonds.head? =
        some "0000001") := by decide

/-- Claim C6 (amended): the newly added block is reversed so that the
lowest-valued new identifier from a range ends up last among the new
block, the largest first. -/
theorem range_block_lowest_last :
    (handleProcessInput ⟨[], "0000005-0000007"⟩).1.bonds =
      ["0000007", "0000006", "0000005"] ∧
    (handleProcessInput ⟨[], "0000005-0000007"⟩).1.bonds.getLast? =
      some "0000005" := by decide

/-- Claim C7: classification tries the strict range pattern first, falls
back to the hyphen test, and only then the single pattern, so for any
prior state the token "12-3456789" lands in the range-malformed bucket
and never in the single-malformed one. -/
theorem classification_precedence_range_malformed (existingSet : List String)
    (st : IngestSt) :
    processSegment existingSet st "12-3456789" =
      { st with rangeFormatErrors := st.rangeFormatErrors + 1 } := by
  have hm : rangeMatch "12-3456789" = none := by decide
  have hd : '-' ∈ "12-3456789".toList := by decide
  simp only [processSegment, hm]
  rw [if_pos hd]

/-- Claim C8: the input "0000001,0000001" ingested into an empty
collection accepts exactly one identifier and counts exactly one
duplicate, detected against the set accepted earlier in the same call. -/
theorem same_call_duplicate_counted :
    processInput [] "0000001,0000001" =
      { IngestSt.init with validNewBonds := ["0000001"], duplicates := 1 } := by decide

/-- Claim C9: range expansion is inclusive of both bounds and renders
each integer as a zero-padded 7-character string: "0000005-0000008"
expands to exactly the four identifiers in ascending order. -/
theorem range_expansion_inclusive_padded :
    processSegment [] IngestSt.init "0000005-0000008" =
      { IngestSt.init with
        validNewBonds := ["0000005", "0000006", "0000007", "0000008"] } := by decide

/-- Claim C10: ingestion is atomic: whenever the accepted set ends up
empty, including on blank input, the bond collection is exactly what it
was before the call. -/
theorem ingestion_atomic_on_failure (a : AppState)
    (h : (processInput a.bonds a.inputValue).validNewBonds = []) :
    (handleProcessInput a).1.bonds = a.bonds := by
  unfold handleProcessInput
  split
  · rfl
  · split
    · rename_i hne; exact absurd h hne
    · split
      · rfl
      · split
        · rfl
        · rfl

theorem ingestion_atomic_on_failure_witness :
    (processInput ["0000001"] "0000001").validNewBonds = [] ∧
    (handleProcessInput ⟨["0000001"], "0000001"⟩).1.bonds = ["0000001"] :=
  ⟨by decide, ingestion_atomic_on_failure ⟨["0000001"], "0000001"⟩ (by decide)⟩

end PrizeBond
